import Mathlib

/-!
A verification development for `allocator.c`.

The allocator keeps a singly linked list of block headers (`block_t`) whose
first element is the global `head`.  The embedding below is written for an
LP64 target (the one `sbrk` and `%zu` point at): `size_t` and pointers are
64 bit wide, `int` and `unsigned int` are 32 bit wide, memory is little
endian and `sizeof(block_t)` is 24 (`size` at offset 0, `next` at offset 8,
`free` at offset 16, four bytes of padding).

The linked list is represented by the list of the headers met when
following `next` from `head`; every header carries the address it lives at,
and the `next` pointer of a header is the address of its successor in the
list (`NULL` for the last one).  This representation is exact as long as the
headers of the chain occupy pairwise disjoint ranges of memory
(`headers_disjoint`).

The `printf` diagnostics of the three entry points only write to standard
output and are left out.
-/

namespace Allocator

/-- Number of values of a `size_t` (and of a pointer): `2 ^ 64`. -/
def SIZE_MOD : Nat := 2 ^ 64

/-- The constant `UINT_MAX` of `limits.h`: `2 ^ 32 - 1`. -/
def UINT_MAX : Nat := 4294967295

/-- The constant `INT_MAX` of `limits.h`: `2 ^ 31 - 1`. -/
def INT_MAX : Nat := 2147483647

/-- The macro `BLOCK_SIZE`, that is `sizeof(block_t)`. -/
def BLOCK_SIZE : Nat := 24

/-- A block header: the fields `size` and `free` of `struct block`, together
with the address the header is stored at.  The field `next` is the position
in the chain. -/
structure block_t where
  addr : Nat
  size : Nat
  free : Int
deriving DecidableEq, Repr

/-- The allocator and its environment: the chain starting at `head`, the
program break with the bounds the system keeps it in, the increments passed
to `sbrk` so far (oldest first), the bytes of memory outside the headers,
and whether the chain is still described by `head` (it is not once a `next`
pointer has been overwritten with a value that is neither its old value nor
`NULL`). -/
structure State where
  head : List block_t
  brk : Nat
  brk_min : Nat
  brk_max : Nat
  sbrk_calls : List Int
  mem : Nat → Nat
  intact : Bool

/-- The low 32 bits of a value, read as a signed 32 bit number.  This
is what a callee with an `int` parameter sees of a `size_t` argument. -/
def int_of_size_t (s : Nat) : Int :=
  if s % 2 ^ 32 < 2 ^ 31 then ((s % 2 ^ 32 : Nat) : Int) else ((s % 2 ^ 32 : Nat) : Int) - 2 ^ 32

/-- Conversion of an `int` to `size_t` (usual arithmetic conversions). -/
def size_t_of_int (i : Int) : Nat := (i % (2 ^ 64 : Int)).toNat

/-- Conversion of a `size_t` to `intptr_t`, the parameter type of `sbrk`. -/
def intptr_of_size_t (s : Nat) : Int :=
  if s % 2 ^ 64 < 2 ^ 63 then ((s % 2 ^ 64 : Nat) : Int) else ((s % 2 ^ 64 : Nat) : Int) - 2 ^ 64

/-- The loop of `find_best_block` (lines 33-43), started at `curr` with the
current values of `bestBlock` and `min`. -/
def find_best_block_loop (size : Int) : List block_t → Option block_t → Nat → Option block_t
  | [], bestBlock, _ => bestBlock
  | curr :: rest, bestBlock, min =>
    if curr.free ≠ 0 ∧ curr.size ≥ size_t_of_int size then
      if curr.size - size_t_of_int size ≤ min then
        find_best_block_loop size rest (some curr) (curr.size - size_t_of_int size)
      else find_best_block_loop size rest bestBlock min
    else find_best_block_loop size rest bestBlock min

/-- The function `find_best_block` (lines 29-48).  Its parameter is declared
without a type and therefore is an `int`; `min` starts at `UINT_MAX`. -/
def find_best_block (head : List block_t) (size : Int) : Option block_t :=
  find_best_block_loop size head none UINT_MAX

/-- The heap-growth primitive `sbrk` of the C library: the break moves by
`increment` and the old break is returned, unless the new break would leave
the bounds, in which case nothing moves and the call fails (`(void*) -1`).
Every call is recorded. -/
def sbrk (st : State) (increment : Int) : Option Nat × State :=
  let st1 := { st with sbrk_calls := st.sbrk_calls ++ [increment] }
  if (st.brk_min : Int) ≤ (st.brk : Int) + increment ∧ (st.brk : Int) + increment ≤ (st.brk_max : Int) then
    (some st.brk, { st1 with brk := ((st.brk : Int) + increment).toNat })
  else (none, st1)

/-- The assignment `block->free = v` for the header stored at address `a`. -/
def set_free (a : Nat) (v : Int) (l : List block_t) : List block_t :=
  l.map (fun b => if b.addr = a then { b with free := v } else b)

/-- The pointer `block + BLOCK_SIZE` for a `block_t*`: the address moves by
`BLOCK_SIZE` elements of `sizeof(block_t)` bytes each. -/
def handle_of (a : Nat) : Nat := a + BLOCK_SIZE * BLOCK_SIZE

/-- The pointer `(block_t*)ptr - BLOCK_SIZE`. -/
def block_of_handle (ptr : Nat) : Nat := ptr - BLOCK_SIZE * BLOCK_SIZE

/-- The function `mymalloc` (lines 61-88).  The result is `none` for `NULL`.
The call `find_best_block(s)` hands the `size_t` value `s` to the `int`
parameter of that function; the argument of `sbrk` is the `size_t` sum
`s + BLOCK_SIZE` converted to `intptr_t`.  A new header is linked behind the
last header of the chain (lines 74-81). -/
def mymalloc (st : State) (s : Nat) : Option Nat × State :=
  if s = 0 then (none, st)
  else
    match find_best_block st.head (int_of_size_t s) with
    | none =>
      match sbrk st (intptr_of_size_t (s + BLOCK_SIZE)) with
      | (none, st1) => (none, st1)
      | (some a, st1) =>
        (some (handle_of a), { st1 with head := st1.head ++ [{ addr := a, size := s, free := 0 }] })
    | some block =>
      (some (handle_of block.addr), { st with head := set_free block.addr 0 st.head })

/-- The function `myfree` (lines 122-129); `none` is the `NULL` pointer. -/
def myfree (st : State) (ptr : Option Nat) : State :=
  match ptr with
  | none => st
  | some p => { st with head := set_free (block_of_handle p) 1 st.head }

/-- The value of a little-endian field of `w` bytes stored at `base` that
held `v`, after the bytes at the addresses `lo ≤ x < lo + len` were set to
zero. -/
def zero_bytes (v base lo len : Nat) : Nat → Nat
  | 0 => 0
  | w + 1 =>
    zero_bytes v base lo len w +
      (if lo ≤ base + w ∧ base + w < lo + len then 0 else v / 256 ^ w % 256 * 256 ^ w)

/-- The effect of `memset(p, 0, len)` on the headers of a chain: the covered
bytes of `size` (offset 0, 8 bytes) and `free` (offset 16, 4 bytes) become
zero.  When the `next` pointer of a header (offset 8, 8 bytes) changes, the
chain ends at that header if the pointer became `NULL`; otherwise it leaves
the headers known here and the second component is `false`. -/
def memset_chain (p len : Nat) : List block_t → List block_t × Bool
  | [] => ([], true)
  | b :: rest =>
    let b1 : block_t :=
      { addr := b.addr
        size := zero_bytes b.size b.addr p len 8
        free := int_of_size_t (zero_bytes (size_t_of_int b.free) (b.addr + 16) p len 4) }
    let nx : Nat := match rest with
      | [] => 0
      | c :: _ => c.addr
    if zero_bytes nx (b.addr + 8) p len 8 = nx then
      (b1 :: (memset_chain p len rest).1, (memset_chain p len rest).2)
    else if zero_bytes nx (b.addr + 8) p len 8 = 0 then ([b1], true)
    else ([b1], false)

/-- The call `memset(p, 0, len)`. -/
def memset_zero (st : State) (p len : Nat) : State :=
  { st with
    mem := fun x => if p ≤ x ∧ x < p + len then 0 else st.mem x
    head := (memset_chain p len st.head).1
    intact := st.intact && (memset_chain p len st.head).2 }

/-- The function `mycalloc` (lines 102-114); the product `nmemb * s` is a
`size_t`.  The pointer returned is `(ptr - BLOCK_SIZE) + BLOCK_SIZE`. -/
def mycalloc (st : State) (nmemb s : Nat) : Option Nat × State :=
  if nmemb = 0 ∨ s = 0 then (none, st)
  else
    match mymalloc st (nmemb * s % SIZE_MOD) with
    | (none, st1) => (none, st1)
    | (some p, st1) =>
      (some (handle_of (block_of_handle p)), memset_zero st1 p (nmemb * s % SIZE_MOD))

/-- The headers of a chain occupy pairwise disjoint ranges of
`sizeof(block_t)` bytes: the condition under which the list of headers
describes the linked list in memory exactly. -/
def headers_disjoint (l : List block_t) : Prop :=
  l.Pairwise (fun x y => x.addr + BLOCK_SIZE ≤ y.addr ∨ y.addr + BLOCK_SIZE ≤ x.addr)

instance (l : List block_t) : Decidable (headers_disjoint l) := by
  unfold headers_disjoint; infer_instance

/-- The allocator before the first call: `head` is `NULL` (line 17), the
break is at `brk` and may rise up to `brk_max`. -/
def initial_state (brk brk_max : Nat) : State :=
  { head := []
    brk := brk
    brk_min := brk
    brk_max := brk_max
    sbrk_calls := []
    mem := fun _ => 0
    intact := true }

/-- Two ranges of bytes, `la` bytes from `a` and `lb` bytes from `b`, have a
byte in common. -/
def ranges_meet (a la b lb : Nat) : Prop := a < b + lb ∧ b < a + la

instance (a la b lb : Nat) : Decidable (ranges_meet a la b lb) := by
  unfold ranges_meet; infer_instance

/-- The bytes of a block record are its header (`sizeof(block_t)` bytes from
`addr`) and its user region (`size` bytes from the handle returned for it).
Two records overlap when a range of the one meets a range of the other. -/
def records_overlap (x y : block_t) : Prop :=
  ranges_meet x.addr BLOCK_SIZE y.addr BLOCK_SIZE ∨
  ranges_meet x.addr BLOCK_SIZE (handle_of y.addr) y.size ∨
  ranges_meet (handle_of x.addr) x.size y.addr BLOCK_SIZE ∨
  ranges_meet (handle_of x.addr) x.size (handle_of y.addr) y.size

instance (x y : block_t) : Decidable (records_overlap x y) := by
  unfold records_overlap; infer_instance

/-- A state whose chain holds one free header of 16 bytes, released by a
caller that had filled its memory with the byte 255. -/
def released_block_state : State :=
  { head := [⟨4096, 16, 1⟩]
    brk := 8192
    brk_min := 4096
    brk_max := 1099511627776
    sbrk_calls := []
    mem := fun _ => 255
    intact := true }

/-- The state after `mymalloc(600)`, `mymalloc(8)` and `myfree` of the first
handle, from the empty chain with the break at 4096. -/
def two_blocks_first_released : State :=
  myfree (mymalloc (mymalloc (initial_state 4096 1099511627776) 600).2 8).2 (some 4672)

/-- The state after `mymalloc(600)`, `mymalloc(8)`, `mymalloc(8)` and `myfree`
of the first handle, from the empty chain with the break at 4096. -/
def three_blocks_first_released : State :=
  myfree (mymalloc (mymalloc (mymalloc (initial_state 4096 1099511627776) 600).2 8).2 8).2
    (some 4672)

/-! ## The scan of `find_best_block` -/

theorem size_t_of_int_natCast (n : Nat) (h : n < 2 ^ 64) : size_t_of_int (n : Int) = n := by
  unfold size_t_of_int
  have h1 : ((n : Int) % (2 ^ 64 : Int)) = (n : Int) := by
    apply Int.emod_eq_of_lt
    · exact Int.ofNat_nonneg n
    · exact_mod_cast h
  rw [h1]; simp

/-- Characterisation of the result of the scan. -/
theorem find_best_block_loop_spec (size : Int) (l : List block_t) :
    ∀ (best : Option block_t) (min : Nat),
      (find_best_block_loop size l best min = best ∧
        ∀ q ∈ l, q.free ≠ 0 → size_t_of_int size ≤ q.size → min < q.size - size_t_of_int size) ∨
      (∃ pre c post, l = pre ++ c :: post ∧ find_best_block_loop size l best min = some c ∧
        c.free ≠ 0 ∧ size_t_of_int size ≤ c.size ∧ c.size - size_t_of_int size ≤ min ∧
        (∀ q ∈ pre, q.free ≠ 0 → size_t_of_int size ≤ q.size →
          q.size - size_t_of_int size ≤ min → c.size - size_t_of_int size ≤ q.size - size_t_of_int size) ∧
        (∀ q ∈ post, q.free ≠ 0 → size_t_of_int size ≤ q.size →
          c.size - size_t_of_int size < q.size - size_t_of_int size)) := by
  induction l with
  | nil => intro best min; left; simp [find_best_block_loop]
  | cons curr rest ih =>
    intro best min
    by_cases hc : curr.free ≠ 0 ∧ curr.size ≥ size_t_of_int size
    · by_cases hm : curr.size - size_t_of_int size ≤ min
      · right
        have hstep : find_best_block_loop size (curr :: rest) best min =
            find_best_block_loop size rest (some curr) (curr.size - size_t_of_int size) := by
          simp only [find_best_block_loop, if_pos hc, if_pos hm]
        rcases ih (some curr) (curr.size - size_t_of_int size) with ⟨hr, hall⟩ | ⟨pre, c, post, hl, hr, hf, hs, hle, hpre, hpost⟩
        · exact ⟨[], curr, rest, rfl, by rw [hstep, hr], hc.1, hc.2, hm, by simp, hall⟩
        · refine ⟨curr :: pre, c, post, by simp [hl], by rw [hstep, hr], hf, hs, le_trans hle hm, ?_, hpost⟩
          intro q hq hqf hqs _
          rcases List.mem_cons.mp hq with rfl | hq
          · exact hle
          · by_cases hq2 : q.size - size_t_of_int size ≤ curr.size - size_t_of_int size
            · exact hpre q hq hqf hqs hq2
            · omega
      · have hstep : find_best_block_loop size (curr :: rest) best min =
            find_best_block_loop size rest best min := by
          simp only [find_best_block_loop, if_pos hc, if_neg hm]
        rcases ih best min with ⟨hr, hall⟩ | ⟨pre, c, post, hl, hr, hf, hs, hle, hpre, hpost⟩
        · left
          refine ⟨by rw [hstep, hr], ?_⟩
          intro q hq hqf hqs
          rcases List.mem_cons.mp hq with rfl | hq
          · omega
          · exact hall q hq hqf hqs
        · right
          refine ⟨curr :: pre, c, post, by simp [hl], by rw [hstep, hr], hf, hs, hle, ?_, hpost⟩
          intro q hq hqf hqs hqm
          rcases List.mem_cons.mp hq with rfl | hq
          · exact absurd hqm hm
          · exact hpre q hq hqf hqs hqm
    · have hstep : find_best_block_loop size (curr :: rest) best min =
          find_best_block_loop size rest best min := by
        simp only [find_best_block_loop, if_neg hc]
      rcases ih best min with ⟨hr, hall⟩ | ⟨pre, c, post, hl, hr, hf, hs, hle, hpre, hpost⟩
      · left
        refine ⟨by rw [hstep, hr], ?_⟩
        intro q hq hqf hqs
        rcases List.mem_cons.mp hq with rfl | hq
        · exact absurd ⟨hqf, hqs⟩ hc
        · exact hall q hq hqf hqs
      · right
        refine ⟨curr :: pre, c, post, by simp [hl], by rw [hstep, hr], hf, hs, hle, ?_, hpost⟩
        intro q hq hqf hqs hqm
        rcases List.mem_cons.mp hq with rfl | hq
        · exact absurd ⟨hqf, hqs⟩ hc
        · exact hpre q hq hqf hqs hqm

/-- What `find_best_block` returns, for a request in the range of its `int`
parameter: the last header of the chain that is free, large enough and has
the least leftover, provided that leftover does not exceed `UINT_MAX`. -/
theorem find_best_block_some_spec (chain : List block_t) (n : Nat) (hmax : n ≤ INT_MAX)
    (b : block_t) (h : find_best_block chain (n : Int) = some b) :
    ∃ pre post, chain = pre ++ b :: post ∧ b.free ≠ 0 ∧ n ≤ b.size ∧ b.size - n ≤ UINT_MAX ∧
      (∀ q ∈ pre, q.free ≠ 0 → n ≤ q.size → b.size - n ≤ q.size - n) ∧
      (∀ q ∈ post, q.free ≠ 0 → n ≤ q.size → b.size - n < q.size - n) := by
  have hsz : size_t_of_int (n : Int) = n :=
    size_t_of_int_natCast n (by unfold INT_MAX at hmax; omega)
  unfold find_best_block at h
  rcases find_best_block_loop_spec (n : Int) chain none UINT_MAX with
    ⟨hr, _⟩ | ⟨pre, c, post, hl, hr, hf, hs, hle, hpre, hpost⟩
  · rw [hr] at h; cases h
  · rw [hr] at h
    cases h
    rw [hsz] at hs hle hpre hpost
    refine ⟨pre, post, hl, hf, hs, hle, ?_, hpost⟩
    intro q hq hqf hqs
    by_cases hq2 : q.size - n ≤ UINT_MAX
    · exact hpre q hq hqf hqs hq2
    · omega

/-- When `find_best_block` reports no candidate, for a request in the range
of its `int` parameter: every free header that is large enough has a
leftover above `UINT_MAX`, and conversely. -/
theorem find_best_block_none_iff (chain : List block_t) (n : Nat) (hmax : n ≤ INT_MAX) :
    find_best_block chain (n : Int) = none ↔
      ∀ q ∈ chain, q.free ≠ 0 → n ≤ q.size → UINT_MAX < q.size - n := by
  have hsz : size_t_of_int (n : Int) = n :=
    size_t_of_int_natCast n (by unfold INT_MAX at hmax; omega)
  unfold find_best_block
  rcases find_best_block_loop_spec (n : Int) chain none UINT_MAX with
    ⟨hr, hall⟩ | ⟨pre, c, post, hl, hr, hf, hs, hle, _, _⟩
  · rw [hsz] at hall
    exact ⟨fun _ => hall, fun _ => hr⟩
  · rw [hsz] at hs hle
    constructor
    · intro h; rw [hr] at h; cases h
    · intro h
      have hc : c ∈ chain := by rw [hl]; simp
      have := h c hc hf hs
      omega

/-! ## Best-fit search -/

/-- Claim C2, evaluated where it fails: the chain holds one free header of one
byte.  For the request `n = 2 ^ 32 + 1`, `mymalloc` calls `find_best_block(s)`
with the `size_t` value `n`; the `int` parameter `size` holds the low 32 bits,
that is 1, and the header of one byte is returned, although its `size` is
less than `n`. -/
theorem find_best_block_candidate_too_small :
    int_of_size_t 4294967297 = 1 ∧
    find_best_block [⟨4096, 1, 1⟩] (int_of_size_t 4294967297) = some ⟨4096, 1, 1⟩ ∧
    (⟨4096, 1, 1⟩ : block_t).size < 4294967297 := by
  decide

/-- Best fit for the requests that fit the `int` parameter of
`find_best_block`: for every chain and every `n` with `1 ≤ n ≤ INT_MAX`, a
header returned by `find_best_block` belongs to the chain, is free, has
`size ≥ n`, and its leftover `size - n` is at most the leftover of every free
header of the chain with `size ≥ n`. -/
theorem find_best_block_best_fit (chain : List block_t) (n : Nat) (hn : 1 ≤ n)
    (hmax : n ≤ INT_MAX) (b : block_t) (h : find_best_block chain (n : Int) = some b) :
    b ∈ chain ∧ b.free ≠ 0 ∧ n ≤ b.size ∧
      ∀ q ∈ chain, q.free ≠ 0 → n ≤ q.size → b.size - n ≤ q.size - n := by
  have _ := hn
  obtain ⟨pre, post, hl, hf, hs, _, hpre, hpost⟩ := find_best_block_some_spec chain n hmax b h
  refine ⟨by rw [hl]; simp, hf, hs, ?_⟩
  intro q hq hqf hqs
  rw [hl] at hq
  rcases List.mem_append.mp hq with hq | hq
  · exact hpre q hq hqf hqs
  · rcases List.mem_cons.mp hq with rfl | hq
    · exact le_refl _
    · exact le_of_lt (hpost q hq hqf hqs)

/-- Free headers of sizes 10, 20 and 15 and a request for 12 bytes select the
header of size 15. -/
theorem find_best_block_best_fit_witness :
    find_best_block [⟨100, 10, 1⟩, ⟨200, 20, 1⟩, ⟨300, 15, 1⟩] ((12 : Nat) : Int)
        = some ⟨300, 15, 1⟩ ∧
      ((⟨300, 15, 1⟩ : block_t) ∈ [(⟨100, 10, 1⟩ : block_t), ⟨200, 20, 1⟩, ⟨300, 15, 1⟩] ∧
        (⟨300, 15, 1⟩ : block_t).free ≠ 0 ∧ 12 ≤ (⟨300, 15, 1⟩ : block_t).size ∧
        ∀ q ∈ [(⟨100, 10, 1⟩ : block_t), ⟨200, 20, 1⟩, ⟨300, 15, 1⟩], q.free ≠ 0 → 12 ≤ q.size →
          (⟨300, 15, 1⟩ : block_t).size - 12 ≤ q.size - 12) :=
  ⟨by decide,
    find_best_block_best_fit [⟨100, 10, 1⟩, ⟨200, 20, 1⟩, ⟨300, 15, 1⟩] 12 (by decide) (by decide)
      ⟨300, 15, 1⟩ (by decide)⟩

/-- Claim C3, evaluated where it fails: the chain holds one free header of
`2 ^ 33` bytes, which is large enough for a request of one byte, and
`find_best_block` reports no candidate, because the leftover `2 ^ 33 - 1`
exceeds the initial value `UINT_MAX` of `min`. -/
theorem find_best_block_misses_large_block :
    find_best_block [⟨4096, 8589934592, 1⟩] ((1 : Nat) : Int) = none ∧
      ∃ q ∈ [(⟨4096, 8589934592, 1⟩ : block_t)], q.free ≠ 0 ∧ 1 ≤ q.size := by
  refine ⟨by decide, ⟨4096, 8589934592, 1⟩, by simp, by decide, by decide⟩

/-- Claim C4, evaluated where it fails: two free headers of `2 ^ 33` bytes tie
on the least leftover for a request of one byte, and `find_best_block`
returns neither of them. -/
theorem find_best_block_tie_not_returned :
    find_best_block [⟨4096, 8589934592, 1⟩, ⟨8589938712, 8589934592, 1⟩] ((1 : Nat) : Int)
      = none := by
  decide

/-- The tie rule of the scan, apart from the bound `UINT_MAX`: the header
returned is followed by no free header that is large enough and has the same
or a smaller leftover; two free headers of size 20 and a request for 15
select the later one. -/
theorem find_best_block_latest_of_ties (chain : List block_t) (n : Nat) (hmax : n ≤ INT_MAX)
    (b : block_t) (h : find_best_block chain (n : Int) = some b) :
    (∃ pre post, chain = pre ++ b :: post ∧
      ∀ q ∈ post, q.free ≠ 0 → n ≤ q.size → b.size - n < q.size - n) ∧
    find_best_block [⟨100, 20, 1⟩, ⟨200, 20, 1⟩] ((15 : Nat) : Int) = some ⟨200, 20, 1⟩ := by
  obtain ⟨pre, post, hl, _, _, _, _, hpost⟩ := find_best_block_some_spec chain n hmax b h
  exact ⟨⟨pre, post, hl, hpost⟩, by decide⟩

/-! ## `mymalloc`, `mycalloc` and `myfree` -/

theorem set_free_of_ne (a : Nat) (v : Int) (l : List block_t) (h : ∀ q ∈ l, q.addr ≠ a) :
    set_free a v l = l := by
  unfold set_free
  induction l with
  | nil => rfl
  | cons x xs ih =>
    have hx : x.addr ≠ a := h x (by simp)
    have hxs : ∀ q ∈ xs, q.addr ≠ a := fun q hq => h q (by simp [hq])
    simp only [List.map_cons, if_neg hx, ih hxs]

theorem set_free_split (v : Int) (pre post : List block_t) (b : block_t)
    (h : headers_disjoint (pre ++ b :: post)) :
    set_free b.addr v (pre ++ b :: post) = pre ++ { b with free := v } :: post := by
  unfold headers_disjoint at h
  rw [List.pairwise_append] at h
  obtain ⟨_, hb, hcross⟩ := h
  rw [List.pairwise_cons] at hb
  have hpre : ∀ q ∈ pre, q.addr ≠ b.addr := by
    intro q hq
    have := hcross q hq b (by simp)
    unfold BLOCK_SIZE at this
    omega
  have hpost : ∀ q ∈ post, q.addr ≠ b.addr := by
    intro q hq
    have := hb.1 q hq
    unfold BLOCK_SIZE at this
    omega
  have h1 := set_free_of_ne b.addr v pre hpre
  have h2 := set_free_of_ne b.addr v post hpost
  unfold set_free at h1 h2 ⊢
  simp only [List.map_append, List.map_cons, h1, h2, if_true]

theorem block_of_handle_of (a : Nat) : block_of_handle (handle_of a) = a := by
  unfold block_of_handle handle_of; omega

/-- The scan started with a candidate ends with a candidate. -/
theorem find_best_block_loop_some (size : Int) (l : List block_t) :
    ∀ (c : block_t) (min : Nat), ∃ d, find_best_block_loop size l (some c) min = some d := by
  induction l with
  | nil => intro c min; exact ⟨c, rfl⟩
  | cons curr rest ih =>
    intro c min
    simp only [find_best_block_loop]
    split
    · split
      · exact ih _ _
      · exact ih _ _
    · exact ih _ _

/-- A header returned by the scan is a header of the chain. -/
theorem find_best_block_mem (size : Int) (l : List block_t) (b : block_t)
    (h : find_best_block l size = some b) : ∃ pre post, l = pre ++ b :: post := by
  unfold find_best_block at h
  rcases find_best_block_loop_spec size l none UINT_MAX with
    ⟨hr, _⟩ | ⟨pre, c, post, hl, hr, _⟩
  · rw [hr] at h; cases h
  · rw [hr] at h; cases h; exact ⟨pre, post, hl⟩

/-- No header of a chain without free headers is a candidate. -/
theorem find_best_block_none_of_used (size : Int) (l : List block_t)
    (h : ∀ q ∈ l, q.free = 0) : find_best_block l size = none := by
  unfold find_best_block
  rcases find_best_block_loop_spec size l none UINT_MAX with
    ⟨hr, _⟩ | ⟨pre, c, post, hl, _, hf, _⟩
  · exact hr
  · exact absurd (h c (by rw [hl]; simp)) hf

/-- The reuse branch of `mymalloc` (line 84). -/
theorem mymalloc_reuse_eq (st : State) (n : Nat) (b : block_t) (hn : 1 ≤ n)
    (h : find_best_block st.head (int_of_size_t n) = some b) :
    mymalloc st n = (some (handle_of b.addr), { st with head := set_free b.addr 0 st.head }) := by
  have hn0 : n ≠ 0 := by omega
  simp only [mymalloc, if_neg hn0, h]

/-- The growth branch of `mymalloc` (lines 68-81) when `sbrk` succeeds. -/
theorem mymalloc_grow_eq (st : State) (n a : Nat) (st1 : State) (hn : 1 ≤ n)
    (h : find_best_block st.head (int_of_size_t n) = none)
    (hg : sbrk st (intptr_of_size_t (n + BLOCK_SIZE)) = (some a, st1)) :
    mymalloc st n =
      (some (handle_of a), { st1 with head := st1.head ++ [{ addr := a, size := n, free := 0 }] }) := by
  have hn0 : n ≠ 0 := by omega
  simp only [mymalloc, if_neg hn0, h, hg]

/-- The growth branch of `mymalloc` when `sbrk` fails (line 70). -/
theorem mymalloc_fail_eq (st : State) (n : Nat) (st1 : State) (hn : 1 ≤ n)
    (h : find_best_block st.head (int_of_size_t n) = none)
    (hg : sbrk st (intptr_of_size_t (n + BLOCK_SIZE)) = (none, st1)) :
    mymalloc st n = (none, st1) := by
  have hn0 : n ≠ 0 := by omega
  simp only [mymalloc, if_neg hn0, h, hg]

/-- A call of `sbrk` leaves the chain alone and records its increment. -/
theorem sbrk_frame (st : State) (i : Int) :
    (sbrk st i).2.head = st.head ∧ (sbrk st i).2.sbrk_calls = st.sbrk_calls ++ [i] ∧
      ((sbrk st i).1 = none → (sbrk st i).2.brk = st.brk) ∧
      (∀ a, (sbrk st i).1 = some a → a = st.brk) := by
  unfold sbrk
  split <;> simp

/-- A call of `sbrk` that stays within the bounds succeeds. -/
theorem sbrk_ok (st : State) (i : Int) (h1 : (st.brk_min : Int) ≤ (st.brk : Int) + i)
    (h2 : (st.brk : Int) + i ≤ (st.brk_max : Int)) :
    sbrk st i = (some st.brk,
      { st with sbrk_calls := st.sbrk_calls ++ [i], brk := ((st.brk : Int) + i).toNat }) := by
  unfold sbrk
  simp only [if_pos (And.intro h1 h2)]

/-! ## Allocation -/

/-- Claim C1, evaluated where it fails: after `mymalloc(1)` and `myfree` of
its result the chain holds one free header of one byte; `mymalloc(2 ^ 32 + 1)`
passes the request to the `int` parameter of `find_best_block`, which sees
the value 1, and returns the handle of that header, whose `size` stays 1. -/
theorem mymalloc_returns_too_small_block :
    (mymalloc (initial_state 4096 1099511627776) 1).1 = some (handle_of 4096) ∧
    (myfree (mymalloc (initial_state 4096 1099511627776) 1).2 (some (handle_of 4096))).head
      = [⟨4096, 1, 1⟩] ∧
    (mymalloc (myfree (mymalloc (initial_state 4096 1099511627776) 1).2
      (some (handle_of 4096))) 4294967297).1 = some (handle_of 4096) ∧
    (mymalloc (myfree (mymalloc (initial_state 4096 1099511627776) 1).2
      (some (handle_of 4096))) 4294967297).2.head = [⟨4096, 1, 0⟩] := by
  decide

/-- Claim C5, evaluated where it fails: from the empty chain, `mymalloc(2 ^ 31)`
creates a header, `myfree` releases it, and the second `mymalloc(2 ^ 31)`
does not find it (the `int` parameter of `find_best_block` holds `-2 ^ 31`,
which the comparison reads as `2 ^ 64 - 2 ^ 31`): `sbrk` is called a second
time, a second header is appended and another handle is returned. -/
theorem mymalloc_after_free_grows_again :
    (mymalloc (initial_state 4096 1099511627776) 2147483648).1 = some 4672 ∧
    (mymalloc (myfree (mymalloc (initial_state 4096 1099511627776) 2147483648).2 (some 4672))
      2147483648).1 = some 2147488344 ∧
    (mymalloc (myfree (mymalloc (initial_state 4096 1099511627776) 2147483648).2 (some 4672))
      2147483648).2.head = [⟨4096, 2147483648, 1⟩, ⟨2147487768, 2147483648, 0⟩] ∧
    (mymalloc (myfree (mymalloc (initial_state 4096 1099511627776) 2147483648).2 (some 4672))
      2147483648).2.sbrk_calls = [2147483672, 2147483672] := by
  decide

/-- Claim C6: for every state and every `k`, `mymalloc(0)`, `mycalloc(0, k)` and
`mycalloc(k, 0)` return `NULL` and leave the whole state as it was: the chain
is unchanged and `sbrk` is not called. -/
theorem zero_size_requests (st : State) (k : Nat) :
    mymalloc st 0 = (none, st) ∧ mycalloc st 0 k = (none, st) ∧ mycalloc st k 0 = (none, st) := by
  refine ⟨?_, ?_, ?_⟩
  · simp [mymalloc]
  · simp [mycalloc]
  · simp [mycalloc]

/-- Claim C7: for every state and every `n ≥ 1`, `mymalloc(n)` returns `NULL`
exactly when `find_best_block` finds no candidate and `sbrk` fails, and then
the chain is unchanged. -/
theorem mymalloc_null_exactly_when_no_memory (st : State) (n : Nat) (hn : 1 ≤ n) :
    ((mymalloc st n).1 = none ↔
      (find_best_block st.head (int_of_size_t n) = none ∧
        (sbrk st (intptr_of_size_t (n + BLOCK_SIZE))).1 = none)) ∧
    ((mymalloc st n).1 = none → (mymalloc st n).2.head = st.head) := by
  have hframe := sbrk_frame st (intptr_of_size_t (n + BLOCK_SIZE))
  cases hfind : find_best_block st.head (int_of_size_t n) with
  | some b =>
    rw [mymalloc_reuse_eq st n b hn hfind]
    simp
  | none =>
    cases hg : sbrk st (intptr_of_size_t (n + BLOCK_SIZE)) with
    | mk r st1 =>
      rw [hg] at hframe
      cases r with
      | none =>
        rw [mymalloc_fail_eq st n st1 hn hfind hg]
        simpa using hframe.1
      | some a =>
        rw [mymalloc_grow_eq st n a st1 hn hfind hg]
        simp

/-- An instance of claim C7: with the break at its upper bound, `mymalloc(8)`
on the empty chain returns `NULL`. -/
theorem mymalloc_null_exactly_when_no_memory_witness :
    (mymalloc (initial_state 4096 4096) 8).1 = none ∧
    (((mymalloc (initial_state 4096 4096) 8).1 = none ↔
      (find_best_block (initial_state 4096 4096).head (int_of_size_t 8) = none ∧
        (sbrk (initial_state 4096 4096) (intptr_of_size_t (8 + BLOCK_SIZE))).1 = none)) ∧
    ((mymalloc (initial_state 4096 4096) 8).1 = none →
      (mymalloc (initial_state 4096 4096) 8).2.head = (initial_state 4096 4096).head)) :=
  ⟨by decide, mymalloc_null_exactly_when_no_memory (initial_state 4096 4096) 8 (by decide)⟩

theorem intptr_of_size_t_small (s : Nat) (h : s < 2 ^ 63) : intptr_of_size_t s = (s : Int) := by
  unfold intptr_of_size_t
  have h1 : s % 2 ^ 64 = s := Nat.mod_eq_of_lt (by omega)
  rw [h1, if_pos h]

/-- A call `mymalloc(n)` on a chain without free headers, with room above the
break: the header is created at the break. -/
theorem mymalloc_fresh_eq (st : State) (n : Nat) (hn : 1 ≤ n) (hsmall : n + 24 < 2 ^ 63)
    (hused : ∀ q ∈ st.head, q.free = 0) (hmin : st.brk_min ≤ st.brk)
    (hroom : st.brk + (n + 24) ≤ st.brk_max) :
    mymalloc st n = (some (handle_of st.brk),
      { st with
        head := st.head ++ [{ addr := st.brk, size := n, free := 0 }]
        brk := st.brk + (n + 24)
        sbrk_calls := st.sbrk_calls ++ [((n + 24 : Nat) : Int)] }) := by
  have hi : intptr_of_size_t (n + BLOCK_SIZE) = ((n + 24 : Nat) : Int) := by
    unfold BLOCK_SIZE; exact intptr_of_size_t_small (n + 24) hsmall
  have hg := sbrk_ok st (intptr_of_size_t (n + BLOCK_SIZE))
    (by rw [hi]; omega) (by rw [hi]; omega)
  rw [mymalloc_grow_eq st n st.brk _ hn (find_best_block_none_of_used _ _ hused) hg, hi]
  have hb : ((st.brk : Int) + ((n + 24 : Nat) : Int)).toNat = st.brk + (n + 24) := by omega
  simp only [hb]

/-- Claim C8: for every state and every `n ≥ 1` for which `find_best_block`
finds no candidate and `sbrk` succeeds with a region whose first
`sizeof(block_t)` bytes lie apart from the headers of the chain, `mymalloc(n)`
returns the handle of the new header, the new chain is the old chain followed
by one header with `size = n` and `free = 0` at the tail, with one more call
of `sbrk`, and the headers stay pairwise disjoint.  From the empty chain, the
requests 8, 16, 24 yield three headers of sizes 8, 16, 24 in that order, with
three calls of `sbrk`. -/
theorem mymalloc_appends_new_block (st : State) (n a : Nat) (st1 : State) (hn : 1 ≤ n)
    (hnone : find_best_block st.head (int_of_size_t n) = none)
    (hgrow : sbrk st (intptr_of_size_t (n + BLOCK_SIZE)) = (some a, st1))
    (hfresh : ∀ q ∈ st.head, q.addr + BLOCK_SIZE ≤ a ∨ a + BLOCK_SIZE ≤ q.addr) :
    ((mymalloc st n).1 = some (handle_of a) ∧
      (mymalloc st n).2.head = st.head ++ [⟨a, n, 0⟩] ∧
      (mymalloc st n).2.sbrk_calls = st.sbrk_calls ++ [intptr_of_size_t (n + BLOCK_SIZE)] ∧
      (headers_disjoint st.head → headers_disjoint (mymalloc st n).2.head)) ∧
    ∀ st0 : State, st0.head = [] → st0.brk_min ≤ st0.brk → st0.brk + 120 ≤ st0.brk_max →
      (mymalloc st0 8).1 = some (handle_of st0.brk) ∧
      (mymalloc (mymalloc st0 8).2 16).1 = some (handle_of (st0.brk + 32)) ∧
      (mymalloc (mymalloc (mymalloc st0 8).2 16).2 24).1 = some (handle_of (st0.brk + 72)) ∧
      (mymalloc (mymalloc (mymalloc st0 8).2 16).2 24).2.head
        = [⟨st0.brk, 8, 0⟩, ⟨st0.brk + 32, 16, 0⟩, ⟨st0.brk + 72, 24, 0⟩] ∧
      (mymalloc (mymalloc (mymalloc st0 8).2 16).2 24).2.sbrk_calls
        = st0.sbrk_calls ++ [32, 40, 48] := by
  constructor
  · have hframe := sbrk_frame st (intptr_of_size_t (n + BLOCK_SIZE))
    rw [hgrow] at hframe
    rw [mymalloc_grow_eq st n a st1 hn hnone hgrow]
    have hh : st1.head = st.head := hframe.1
    refine ⟨rfl, by simp [hh], by simpa using hframe.2.1, ?_⟩
    intro hd
    show headers_disjoint (st1.head ++ [⟨a, n, 0⟩])
    rw [hh]
    unfold headers_disjoint at hd ⊢
    rw [List.pairwise_append]
    refine ⟨hd, by simp, ?_⟩
    intro x hx y hy
    rw [List.mem_singleton] at hy
    subst hy
    exact hfresh x hx
  · intro st0 h0 hmin hroom
    have e1 := mymalloc_fresh_eq st0 8 (by decide) (by decide) (by simp [h0]) hmin (by omega)
    rw [e1]
    have e2 := mymalloc_fresh_eq
      { st0 with
        head := st0.head ++ [{ addr := st0.brk, size := 8, free := 0 }]
        brk := st0.brk + (8 + 24)
        sbrk_calls := st0.sbrk_calls ++ [((8 + 24 : Nat) : Int)] } 16
      (by decide) (by decide) (by simp [h0]) (by simp; omega) (by simp; omega)
    simp only [] at e2 ⊢
    rw [e2]
    have e3 := mymalloc_fresh_eq
      { st0 with
        head := st0.head ++ [{ addr := st0.brk, size := 8, free := 0 }] ++
          [{ addr := st0.brk + (8 + 24), size := 16, free := 0 }]
        brk := st0.brk + (8 + 24) + (16 + 24)
        sbrk_calls := st0.sbrk_calls ++ [((8 + 24 : Nat) : Int)] ++ [((16 + 24 : Nat) : Int)] } 24
      (by decide) (by decide) (by simp [h0]) (by simp; omega) (by simp; omega)
    simp only [] at e3 ⊢
    rw [e3]
    simp [h0]

/-- An instance of claim C8: the first request of 8 bytes on the empty chain,
with the break at 4096 and room above it. -/
theorem mymalloc_appends_new_block_witness :
    (mymalloc (initial_state 4096 1099511627776) 8).1 = some (handle_of 4096) ∧
    (mymalloc (initial_state 4096 1099511627776) 8).2.head
      = (initial_state 4096 1099511627776).head ++ [⟨4096, 8, 0⟩] ∧
    (mymalloc (initial_state 4096 1099511627776) 8).2.sbrk_calls
      = (initial_state 4096 1099511627776).sbrk_calls ++ [intptr_of_size_t (8 + BLOCK_SIZE)] ∧
    (headers_disjoint (initial_state 4096 1099511627776).head →
      headers_disjoint (mymalloc (initial_state 4096 1099511627776) 8).2.head) :=
  (mymalloc_appends_new_block (initial_state 4096 1099511627776) 8 4096
    (sbrk (initial_state 4096 1099511627776) (intptr_of_size_t (8 + BLOCK_SIZE))).2
    (by decide) (by decide) rfl (by simp [initial_state])).1

/-- A handle returned by `mymalloc` is the handle of a header of the chain
left by the call. -/
theorem mymalloc_handle_mem (st : State) (n h : Nat) (hr : (mymalloc st n).1 = some h) :
    ∃ q ∈ (mymalloc st n).2.head, h = handle_of q.addr := by
  by_cases hn0 : n = 0
  · subst hn0
    simp [mymalloc] at hr
  · have hn : 1 ≤ n := by omega
    cases hfind : find_best_block st.head (int_of_size_t n) with
    | some b =>
      rw [mymalloc_reuse_eq st n b hn hfind] at hr ⊢
      obtain ⟨pre, post, hl⟩ := find_best_block_mem _ _ _ hfind
      refine ⟨{ b with free := 0 }, ?_, ?_⟩
      · show _ ∈ set_free b.addr 0 st.head
        unfold set_free
        rw [List.mem_map]
        exact ⟨b, by rw [hl]; simp, by simp⟩
      · simpa using hr.symm
    | none =>
      cases hg : sbrk st (intptr_of_size_t (n + BLOCK_SIZE)) with
      | mk r st1 =>
        cases r with
        | none =>
          rw [mymalloc_fail_eq st n st1 hn hfind hg] at hr
          simp at hr
        | some a =>
          rw [mymalloc_grow_eq st n a st1 hn hfind hg] at hr ⊢
          exact ⟨⟨a, n, 0⟩, by simp, by simpa using hr.symm⟩

theorem int_of_size_t_small (n : Nat) (h : n ≤ INT_MAX) : int_of_size_t n = (n : Int) := by
  unfold INT_MAX at h
  unfold int_of_size_t
  have h1 : n % 2 ^ 32 = n := Nat.mod_eq_of_lt (by omega)
  rw [h1, if_pos (by omega)]

/-- For a request in the range of `int`, the header behind the handle that
`mymalloc` returns is marked used and has at least the requested size. -/
theorem mymalloc_block_large_enough (st : State) (n h : Nat) (hn : 1 ≤ n) (hmax : n ≤ INT_MAX)
    (hr : (mymalloc st n).1 = some h) :
    ∃ q ∈ (mymalloc st n).2.head, h = handle_of q.addr ∧ q.free = 0 ∧ n ≤ q.size := by
  cases hfind : find_best_block st.head (int_of_size_t n) with
  | some b =>
    rw [mymalloc_reuse_eq st n b hn hfind] at hr ⊢
    have hfind2 := hfind
    rw [int_of_size_t_small n hmax] at hfind2
    obtain ⟨pre, post, hl, _, hs, _⟩ := find_best_block_some_spec st.head n hmax b hfind2
    refine ⟨{ b with free := 0 }, ?_, ?_, rfl, hs⟩
    · show _ ∈ set_free b.addr 0 st.head
      unfold set_free
      rw [List.mem_map]
      exact ⟨b, by rw [hl]; simp, by simp⟩
    · simpa using hr.symm
  | none =>
    cases hg : sbrk st (intptr_of_size_t (n + BLOCK_SIZE)) with
    | mk r st1 =>
      cases r with
      | none =>
        rw [mymalloc_fail_eq st n st1 hn hfind hg] at hr
        simp at hr
      | some a =>
        rw [mymalloc_grow_eq st n a st1 hn hfind hg] at hr ⊢
        exact ⟨⟨a, n, 0⟩, by simp, by simpa using hr.symm, rfl, le_refl n⟩

/-- Claim C9: for every state with pairwise disjoint headers and every `n ≥ 1`
for which `find_best_block` finds the header `b`, `mymalloc(n)` returns the
handle of `b` and changes nothing in the state but the `free` field of `b`,
which becomes 0: `sbrk` is not called, the headers keep their number, order,
addresses and sizes, and `b` keeps its size. -/
theorem mymalloc_reuses_candidate (st : State) (n : Nat) (b : block_t) (hn : 1 ≤ n)
    (hfind : find_best_block st.head (int_of_size_t n) = some b)
    (hwf : headers_disjoint st.head) :
    (∃ pre post, st.head = pre ++ b :: post ∧
      mymalloc st n = (some (handle_of b.addr),
        { st with head := pre ++ { addr := b.addr, size := b.size, free := 0 } :: post })) ∧
    (mymalloc st n).2.sbrk_calls = st.sbrk_calls ∧
    (mymalloc st n).2.brk = st.brk ∧
    (mymalloc st n).2.head.length = st.head.length ∧
    (mymalloc st n).2.head.map block_t.addr = st.head.map block_t.addr ∧
    (mymalloc st n).2.head.map block_t.size = st.head.map block_t.size := by
  obtain ⟨pre, post, hl⟩ := find_best_block_mem _ _ _ hfind
  have hs : set_free b.addr 0 st.head = pre ++ { b with free := 0 } :: post := by
    rw [hl] at hwf ⊢
    exact set_free_split 0 pre post b hwf
  have he := mymalloc_reuse_eq st n b hn hfind
  rw [hs] at he
  refine ⟨⟨pre, post, hl, he⟩, ?_, ?_, ?_, ?_, ?_⟩
  · rw [he]
  · rw [he]
  · rw [he, hl]; simp
  · rw [he, hl]; simp
  · rw [he, hl]; simp

/-- An instance of claim C9: a chain with a used header of 8 bytes and a free
header of 16 bytes, and a request for 12 bytes. -/
theorem mymalloc_reuses_candidate_witness :
    (mymalloc { initial_state 8192 1099511627776 with head := [⟨4096, 8, 0⟩, ⟨4128, 16, 1⟩] } 12).2.head
      = [⟨4096, 8, 0⟩, ⟨4128, 16, 0⟩] ∧
    (mymalloc { initial_state 8192 1099511627776 with head := [⟨4096, 8, 0⟩, ⟨4128, 16, 1⟩] } 12).2.sbrk_calls
      = [] :=
  ⟨by decide,
    (mymalloc_reuses_candidate { initial_state 8192 1099511627776 with head := [⟨4096, 8, 0⟩, ⟨4128, 16, 1⟩] }
      12 ⟨4128, 16, 1⟩ (by decide) (by decide) (by decide)).2.1⟩

/-! ## Release -/

/-- Claim C10: `myfree(NULL)` leaves the state as it was; for a header `b` of a
chain with pairwise disjoint headers, `myfree` of the handle of `b` changes
nothing in the state but the `free` field of `b`, which becomes 1.  Every
handle returned by `mymalloc` is the handle of a header of the chain, and
`mycalloc` returns the handle its call of `mymalloc` returned. -/
theorem myfree_sets_only_its_flag (st : State) (pre post : List block_t) (b : block_t)
    (hchain : st.head = pre ++ b :: post) (hwf : headers_disjoint st.head) :
    myfree st none = st ∧
    myfree st (some (handle_of b.addr))
      = { st with head := pre ++ { addr := b.addr, size := b.size, free := 1 } :: post } ∧
    (∀ s0 n h, (mymalloc s0 n).1 = some h → ∃ q ∈ (mymalloc s0 n).2.head, h = handle_of q.addr) ∧
    (∀ s0 m s h, (mycalloc s0 m s).1 = some h → (mymalloc s0 (m * s % SIZE_MOD)).1 = some h) := by
  refine ⟨rfl, ?_, mymalloc_handle_mem, ?_⟩
  · have hs : set_free b.addr 1 st.head = pre ++ { b with free := 1 } :: post := by
      rw [hchain] at hwf ⊢
      exact set_free_split 1 pre post b hwf
    simp only [myfree, block_of_handle_of, hs]
  · intro s0 m s h hr
    unfold mycalloc at hr
    split at hr
    · simp at hr
    · cases hm : mymalloc s0 (m * s % SIZE_MOD) with
      | mk r st1 =>
        rw [hm] at hr
        cases r with
        | none => simp at hr
        | some p =>
          have hp : (mymalloc s0 (m * s % SIZE_MOD)).1 = some p := by rw [hm]
          obtain ⟨q, _, hq⟩ := mymalloc_handle_mem s0 _ p hp
          simp only [Option.some.injEq] at hr
          rw [hq, block_of_handle_of] at hr
          simp [hq, hr]

/-- An instance of claim C10: releasing the handle of the second of two used
headers sets the `free` field of that header only. -/
theorem myfree_sets_only_its_flag_witness :
    (myfree { initial_state 8192 1099511627776 with head := [⟨4096, 8, 0⟩, ⟨4128, 16, 0⟩] }
      (some (handle_of 4128))).head = [⟨4096, 8, 0⟩, ⟨4128, 16, 1⟩] := by
  rw [(myfree_sets_only_its_flag { initial_state 8192 1099511627776 with head := [⟨4096, 8, 0⟩, ⟨4128, 16, 0⟩] }
    [⟨4096, 8, 0⟩] [] ⟨4128, 16, 0⟩ rfl (by decide)).2.1]
  rfl

/-! ## Reuse after release, for requests in the range of `int` -/

/-- The scan only looks at the fields `size` and `free` (zero or not). -/
theorem find_best_block_loop_map (size : Int) (f : block_t → block_t) (l : List block_t)
    (hf : ∀ x ∈ l, (f x).size = x.size ∧ ((f x).free ≠ 0 ↔ x.free ≠ 0)) :
    ∀ (best : Option block_t) (min : Nat),
      find_best_block_loop size (l.map f) (best.map f) min
        = (find_best_block_loop size l best min).map f := by
  induction l with
  | nil => intro best min; rfl
  | cons x xs ih =>
    intro best min
    have hx := hf x (by simp)
    have hxs : ∀ y ∈ xs, (f y).size = y.size ∧ ((f y).free ≠ 0 ↔ y.free ≠ 0) :=
      fun y hy => hf y (by simp [hy])
    simp only [List.map_cons, find_best_block_loop, hx.1, hx.2]
    split
    · split
      · have := ih hxs (some x) (x.size - size_t_of_int size)
        simpa using this
      · exact ih hxs best min
    · exact ih hxs best min

theorem set_free_set_free (a : Nat) (v w : Int) (l : List block_t) :
    set_free a w (set_free a v l) = set_free a w l := by
  unfold set_free
  rw [List.map_map]
  apply List.map_congr_left
  intro x _
  by_cases hx : x.addr = a <;> simp [hx]

theorem headers_disjoint_addr_inj (l : List block_t) (h : headers_disjoint l) (x y : block_t)
    (hx : x ∈ l) (hy : y ∈ l) (hxy : x.addr = y.addr) : x = y := by
  by_contra hne
  unfold headers_disjoint at h
  have := List.Pairwise.forall (fun {a b} hab => Or.symm hab) h hx hy hne
  unfold BLOCK_SIZE at this
  omega

/-- For every state with pairwise disjoint headers and every `n` with
`1 ≤ n ≤ INT_MAX`: when `mymalloc(n)` returns `h` (with a fresh region if it
grows the heap), `myfree(h)` followed by `mymalloc(n)` returns `h` again,
without a call of `sbrk` and without a new header. -/
theorem mymalloc_free_mymalloc (st : State) (n h : Nat) (hn : 1 ≤ n) (hmax : n ≤ INT_MAX)
    (hwf : headers_disjoint st.head)
    (hfresh : ∀ q ∈ st.head, q.addr + BLOCK_SIZE ≤ st.brk ∨ st.brk + BLOCK_SIZE ≤ q.addr)
    (hr : (mymalloc st n).1 = some h) :
    (mymalloc (myfree (mymalloc st n).2 (some h)) n).1 = some h ∧
    (mymalloc (myfree (mymalloc st n).2 (some h)) n).2.sbrk_calls = (mymalloc st n).2.sbrk_calls ∧
    (mymalloc (myfree (mymalloc st n).2 (some h)) n).2.head.length
      = (mymalloc st n).2.head.length := by
  have hi := int_of_size_t_small n hmax
  cases hfind : find_best_block st.head (int_of_size_t n) with
  | some b =>
    have he := mymalloc_reuse_eq st n b hn hfind
    rw [he] at hr ⊢
    simp only [Option.some.injEq] at hr
    subst hr
    obtain ⟨pre, post, hl⟩ := find_best_block_mem _ _ _ hfind
    have hbm : b ∈ st.head := by rw [hl]; simp
    have hbf : b.free ≠ 0 := by
      rw [hi] at hfind
      obtain ⟨_, _, _, hf, _⟩ := find_best_block_some_spec st.head n hmax b hfind
      exact hf
    have hhead : (myfree { st with head := set_free b.addr 0 st.head }
        (some (handle_of b.addr))).head = set_free b.addr 1 st.head := by
      simp only [myfree, block_of_handle_of, set_free_set_free]
    have hscan : find_best_block (set_free b.addr 1 st.head) (int_of_size_t n)
        = some { b with free := 1 } := by
      have hm := find_best_block_loop_map (int_of_size_t n)
        (fun x => if x.addr = b.addr then { x with free := 1 } else x) st.head
        (by
          intro x hx
          by_cases hxa : x.addr = b.addr
          · have hxb := headers_disjoint_addr_inj st.head hwf x b hx hbm hxa
            subst hxb
            simp [hbf]
          · simp [hxa]) none UINT_MAX
      unfold find_best_block at hfind ⊢
      unfold set_free
      simp only [Option.map_none'] at hm
      rw [hm, hfind]
      simp
    have he2 := mymalloc_reuse_eq (myfree { st with head := set_free b.addr 0 st.head }
      (some (handle_of b.addr))) n { b with free := 1 } hn (by rw [hhead]; exact hscan)
    rw [he2]
    refine ⟨rfl, rfl, ?_⟩
    simp [myfree, set_free]
  | none =>
    cases hg : sbrk st (intptr_of_size_t (n + BLOCK_SIZE)) with
    | mk r st1 =>
      have hframe := sbrk_frame st (intptr_of_size_t (n + BLOCK_SIZE))
      rw [hg] at hframe
      cases r with
      | none =>
        rw [mymalloc_fail_eq st n st1 hn hfind hg] at hr
        simp at hr
      | some a =>
        have ha : a = st.brk := hframe.2.2.2 a rfl
        have hh : st1.head = st.head := hframe.1
        have he := mymalloc_grow_eq st n a st1 hn hfind hg
        rw [he] at hr ⊢
        simp only [Option.some.injEq] at hr
        subst hr
        have hne : ∀ q ∈ st.head, q.addr ≠ a := by
          intro q hq
          have := hfresh q hq
          unfold BLOCK_SIZE at this
          omega
        have hhead : (myfree { st1 with head := st1.head ++ [⟨a, n, 0⟩] }
            (some (handle_of a))).head = st.head ++ [⟨a, n, 1⟩] := by
          have h1 := set_free_of_ne a 1 st.head hne
          unfold set_free at h1
          simp [myfree, block_of_handle_of, set_free, hh, h1]
        have hscan : find_best_block (st.head ++ [⟨a, n, 1⟩]) (int_of_size_t n)
            = some ⟨a, n, 1⟩ := by
          rw [hi] at hfind ⊢
          have hall := (find_best_block_none_iff st.head n hmax).mp hfind
          cases hf2 : find_best_block (st.head ++ [⟨a, n, 1⟩]) (n : Int) with
          | none =>
            have := (find_best_block_none_iff _ n hmax).mp hf2 ⟨a, n, 1⟩ (by simp)
              (by simp) (le_refl n)
            simp at this
          | some c =>
            obtain ⟨pre, post, hl, hcf, hcs, hcle, _, _⟩ :=
              find_best_block_some_spec _ n hmax c hf2
            have hc : c ∈ st.head ++ [⟨a, n, 1⟩] := by rw [hl]; simp
            rcases List.mem_append.mp hc with hc | hc
            · have := hall c hc hcf hcs
              omega
            · rw [List.mem_singleton] at hc
              rw [hc]
        have he2 := mymalloc_reuse_eq (myfree { st1 with head := st1.head ++ [⟨a, n, 0⟩] }
          (some (handle_of a))) n ⟨a, n, 1⟩ hn (by rw [hhead]; exact hscan)
        rw [he2]
        refine ⟨rfl, rfl, ?_⟩
        simp [myfree, set_free]

/-! ## Zero-filled allocation -/

/-- The handle `mycalloc` returns is the one its call of `mymalloc` returned,
and `mycalloc` fails exactly when that call fails. -/
theorem mycalloc_result_eq (st : State) (m s : Nat) (hm : 1 ≤ m) (hs : 1 ≤ s) :
    (mycalloc st m s).1 = (mymalloc st (m * s % SIZE_MOD)).1 := by
  have hz : ¬ (m = 0 ∨ s = 0) := by omega
  unfold mycalloc
  rw [if_neg hz]
  cases hmal : mymalloc st (m * s % SIZE_MOD) with
  | mk r st1 =>
    cases r with
    | none => rfl
    | some p =>
      have hp : (mymalloc st (m * s % SIZE_MOD)).1 = some p := by rw [hmal]
      obtain ⟨q, _, hq⟩ := mymalloc_handle_mem st _ p hp
      simp [hq, block_of_handle_of]

/-- The state `mycalloc` leaves is the state its call of `mymalloc` leaves,
after `memset` over the requested number of bytes from the handle. -/
theorem mycalloc_state_eq (st : State) (m s h : Nat) (hm : 1 ≤ m) (hs : 1 ≤ s)
    (hr : (mymalloc st (m * s % SIZE_MOD)).1 = some h) :
    (mycalloc st m s).2 = memset_zero (mymalloc st (m * s % SIZE_MOD)).2 h (m * s % SIZE_MOD) := by
  have hz : ¬ (m = 0 ∨ s = 0) := by omega
  unfold mycalloc
  rw [if_neg hz]
  cases hmal : mymalloc st (m * s % SIZE_MOD) with
  | mk r st1 =>
    rw [hmal] at hr
    cases r with
    | none => simp at hr
    | some p =>
      simp only [Option.some.injEq] at hr
      subst hr
      rfl

/-- Claim C11, evaluated where it fails: a free header of 16 bytes whose memory
holds the byte 255 is reused for `mycalloc(1, 8)`; the handle is 4672, the
header behind it keeps `size = 16`, and the byte at 4680, the ninth of its 16
usable bytes, still reads 255. -/
theorem mycalloc_leaves_tail_unzeroed :
    (mycalloc released_block_state 1 8).1 = some 4672 ∧
    (mycalloc released_block_state 1 8).2.head = [⟨4096, 16, 0⟩] ∧
    handle_of 4096 = 4672 ∧ 4672 ≤ 4680 ∧ 4680 < 4672 + 16 ∧
    (mycalloc released_block_state 1 8).2.mem 4680 = 255 := by
  decide

/-- Claim C11, amended: for every state and every `m, s ≥ 1` whose product is a
`size_t`, if `mycalloc(m, s)` returns a handle, then each of the `m * s` bytes
from the handle on reads as zero after the call. -/
theorem mycalloc_zeroes_requested_bytes (st : State) (m s h : Nat) (hm : 1 ≤ m) (hs : 1 ≤ s)
    (hprod : m * s < SIZE_MOD) (hr : (mycalloc st m s).1 = some h) :
    ∀ x, h ≤ x → x < h + m * s → (mycalloc st m s).2.mem x = 0 := by
  intro x hx1 hx2
  rw [mycalloc_result_eq st m s hm hs] at hr
  rw [mycalloc_state_eq st m s h hm hs hr, Nat.mod_eq_of_lt hprod]
  simp [memset_zero, hx1, hx2]

/-- An instance of the amended claim C11: after `mycalloc(1, 8)` on the free
header of 16 bytes, the byte at 4679, the last of the 8 requested, reads 0. -/
theorem mycalloc_zeroes_requested_bytes_witness :
    (mycalloc released_block_state 1 8).2.mem 4679 = 0 :=
  mycalloc_zeroes_requested_bytes released_block_state 1 8 4672 (by decide) (by decide)
    (by decide) (by decide) 4679 (by decide) (by decide)

/-! ## Addresses -/

/-- Claim C12, evaluated where it fails: on the empty chain with the break at
4096, `mymalloc(8)` creates its header at 4096 and returns 4672, which is the
address of the header plus `BLOCK_SIZE * BLOCK_SIZE = 576`, not plus
`BLOCK_SIZE = 24`; `mycalloc(1, 8)` does the same. -/
theorem handle_is_not_behind_header :
    (mymalloc (initial_state 4096 1099511627776) 8).2.head = [⟨4096, 8, 0⟩] ∧
    (mymalloc (initial_state 4096 1099511627776) 8).1 = some 4672 ∧
    (mycalloc (initial_state 4096 1099511627776) 1 8).2.head = [⟨4096, 8, 0⟩] ∧
    (mycalloc (initial_state 4096 1099511627776) 1 8).1 = some 4672 ∧
    4672 = 4096 + BLOCK_SIZE * BLOCK_SIZE ∧ 4672 ≠ 4096 + BLOCK_SIZE := by
  decide

/-- Claim C13, evaluated where it fails: from the empty chain with the break at
4096, `mymalloc(600)` and `mymalloc(8)` obtain the regions of 624 bytes from
4096 and of 32 bytes from 4720; the user region of the first record, 600
bytes from its handle 4672, contains the header of the second record. -/
theorem user_region_meets_next_header :
    (mymalloc (mymalloc (initial_state 4096 1099511627776) 600).2 8).2.head
      = [⟨4096, 600, 0⟩, ⟨4720, 8, 0⟩] ∧
    (mymalloc (mymalloc (initial_state 4096 1099511627776) 600).2 8).2.sbrk_calls = [624, 32] ∧
    ranges_meet (handle_of 4096) 600 4720 BLOCK_SIZE ∧
    records_overlap ⟨4096, 600, 0⟩ ⟨4720, 8, 0⟩ := by
  decide

/-! ## The chain under `mycalloc` -/

/-- Claim C14, evaluated where it fails: the chain holds a free header of 600
bytes at 4096 and a used header of 8 bytes at 4720.  Both `mymalloc(600)` and
`mycalloc(1, 600)` return the handle 4672, but `mymalloc` leaves the second
header as it was, while the `memset` of `mycalloc` over the 600 bytes from
4672 sets the `size` of the second header to 0. -/
theorem mycalloc_chain_differs_from_mymalloc :
    two_blocks_first_released.head = [⟨4096, 600, 1⟩, ⟨4720, 8, 0⟩] ∧
    (mymalloc two_blocks_first_released 600).1 = some 4672 ∧
    (mymalloc two_blocks_first_released 600).2.head = [⟨4096, 600, 0⟩, ⟨4720, 8, 0⟩] ∧
    (mycalloc two_blocks_first_released 1 600).1 = some 4672 ∧
    (mycalloc two_blocks_first_released 1 600).2.head = [⟨4096, 600, 0⟩, ⟨4720, 0, 0⟩] := by
  decide

/-- Claim C15, evaluated where it fails: the chain holds three headers, of 600
bytes (free) at 4096 and of 8 bytes at 4720 and 4752.  After
`mycalloc(1, 600)` the chain holds two headers: the `memset` over the 600
bytes from 4672 has set the `size` of the second header to 0 and its `next`
pointer to `NULL`, so the third header is no longer in the chain. -/
theorem mycalloc_drops_record :
    three_blocks_first_released.head = [⟨4096, 600, 1⟩, ⟨4720, 8, 0⟩, ⟨4752, 8, 0⟩] ∧
    (mycalloc three_blocks_first_released 1 600).1 = some 4672 ∧
    (mycalloc three_blocks_first_released 1 600).2.head = [⟨4096, 600, 0⟩, ⟨4720, 0, 0⟩] ∧
    (mycalloc three_blocks_first_released 1 600).2.intact = true := by
  decide

/-- Claim C16, evaluated where it fails: from the empty chain, `mymalloc(600)`,
`mymalloc(8)`, `myfree` of the first handle and `mycalloc(1, 600)` lead to a
chain whose second header has `size = 0`. -/
theorem reachable_record_of_size_zero :
    (mymalloc (initial_state 4096 1099511627776) 600).1 = some 4672 ∧
    ∃ q ∈ (mycalloc (myfree (mymalloc (mymalloc (initial_state 4096 1099511627776) 600).2 8).2
        (mymalloc (initial_state 4096 1099511627776) 600).1) 1 600).2.head,
      q.size = 0 := by
  refine ⟨by decide, ⟨4720, 0, 0⟩, by decide, rfl⟩

/-- Both `mymalloc` and `myfree` keep every header of the chain, in order and
with its address and size; `mymalloc` adds at most one header, at the tail. -/
theorem mymalloc_myfree_keep_records (st : State) (n : Nat) (p : Option Nat) :
    (∃ tail : List block_t, tail.length ≤ 1 ∧
      (mymalloc st n).2.head.map block_t.addr = st.head.map block_t.addr ++ tail.map block_t.addr ∧
      (mymalloc st n).2.head.map block_t.size = st.head.map block_t.size ++ tail.map block_t.size) ∧
    (myfree st p).head.map block_t.addr = st.head.map block_t.addr ∧
    (myfree st p).head.map block_t.size = st.head.map block_t.size := by
  have hsf : ∀ (a : Nat) (v : Int) (l : List block_t),
      (set_free a v l).map block_t.addr = l.map block_t.addr ∧
      (set_free a v l).map block_t.size = l.map block_t.size := by
    intro a v l
    unfold set_free
    constructor
    · rw [List.map_map]
      apply List.map_congr_left
      intro x _
      by_cases hx : x.addr = a <;> simp [hx]
    · rw [List.map_map]
      apply List.map_congr_left
      intro x _
      by_cases hx : x.addr = a <;> simp [hx]
  refine ⟨?_, ?_, ?_⟩
  · by_cases hn0 : n = 0
    · subst hn0
      exact ⟨[], by simp, by simp [mymalloc], by simp [mymalloc]⟩
    · have hn : 1 ≤ n := by omega
      cases hfind : find_best_block st.head (int_of_size_t n) with
      | some b =>
        rw [mymalloc_reuse_eq st n b hn hfind]
        exact ⟨[], by simp, by simpa using (hsf b.addr 0 st.head).1,
          by simpa using (hsf b.addr 0 st.head).2⟩
      | none =>
        cases hg : sbrk st (intptr_of_size_t (n + BLOCK_SIZE)) with
        | mk r st1 =>
          have hframe := sbrk_frame st (intptr_of_size_t (n + BLOCK_SIZE))
          rw [hg] at hframe
          have hh : st1.head = st.head := hframe.1
          cases r with
          | none =>
            rw [mymalloc_fail_eq st n st1 hn hfind hg]
            exact ⟨[], by simp, by simp [hh], by simp [hh]⟩
          | some a =>
            rw [mymalloc_grow_eq st n a st1 hn hfind hg]
            exact ⟨[⟨a, n, 0⟩], by simp, by simp [hh], by simp [hh]⟩
  · cases p with
    | none => rfl
    | some q => exact (hsf _ 1 st.head).1
  · cases p with
    | none => rfl
    | some q => exact (hsf _ 1 st.head).2

/-! ## Arithmetic of the requests -/

/-- Claim C17, evaluated where it fails: on the empty chain `mymalloc(2 ^ 64 - 24)`
calls `sbrk` with the increment 0 (the `size_t` sum `s + BLOCK_SIZE` wraps),
takes the unmoved break 4096 for a new header and returns a handle; after
`mymalloc(8)`, `mymalloc(2 ^ 64 - 25)` calls `sbrk` with the increment -1, which
lowers the break from 4128 to 4127, and returns a handle as well. -/
theorem sbrk_increment_wraps :
    (mymalloc (initial_state 4096 1099511627776) 18446744073709551592).1 = some 4672 ∧
    (mymalloc (initial_state 4096 1099511627776) 18446744073709551592).2.sbrk_calls = [0] ∧
    (mymalloc (initial_state 4096 1099511627776) 18446744073709551592).2.brk = 4096 ∧
    (mymalloc (initial_state 4096 1099511627776) 18446744073709551592).2.head
      = [⟨4096, 18446744073709551592, 0⟩] ∧
    (mymalloc (mymalloc (initial_state 4096 1099511627776) 8).2 18446744073709551591).1
      = some 4704 ∧
    (mymalloc (mymalloc (initial_state 4096 1099511627776) 8).2 18446744073709551591).2.sbrk_calls
      = [32, -1] ∧
    (mymalloc (mymalloc (initial_state 4096 1099511627776) 8).2 18446744073709551591).2.brk
      = 4127 := by
  decide

/-- When `n + 24` is below `2 ^ 63`, a call `mymalloc(n)` that finds no
candidate passes exactly `n + 24` to `sbrk`. -/
theorem mymalloc_increment_exact (st : State) (n : Nat) (hn : 1 ≤ n) (hsmall : n + 24 < 2 ^ 63)
    (hnone : find_best_block st.head (int_of_size_t n) = none) :
    (mymalloc st n).2.sbrk_calls = st.sbrk_calls ++ [((n + 24 : Nat) : Int)] := by
  have hi : intptr_of_size_t (n + BLOCK_SIZE) = ((n + 24 : Nat) : Int) := by
    unfold BLOCK_SIZE; exact intptr_of_size_t_small (n + 24) hsmall
  have hframe := sbrk_frame st (intptr_of_size_t (n + BLOCK_SIZE))
  cases hg : sbrk st (intptr_of_size_t (n + BLOCK_SIZE)) with
  | mk r st1 =>
    rw [hg] at hframe
    cases r with
    | none =>
      rw [mymalloc_fail_eq st n st1 hn hnone hg, ← hi]
      exact hframe.2.1
    | some a =>
      rw [mymalloc_grow_eq st n a st1 hn hnone hg, ← hi]
      exact hframe.2.1

/-- Claim C19, evaluated where it fails: on the empty chain
`mycalloc(2 ^ 63 + 4, 2)` returns a handle, and the header behind it has
`size = 8`, the product `2 ^ 64 + 8` reduced modulo `2 ^ 64`; one call of `sbrk`
asked for 32 bytes. -/
theorem mycalloc_product_wraps :
    (mycalloc (initial_state 4096 1099511627776) 9223372036854775812 2).1 = some 4672 ∧
    (mycalloc (initial_state 4096 1099511627776) 9223372036854775812 2).2.head
      = [⟨4096, 8, 0⟩] ∧
    (mycalloc (initial_state 4096 1099511627776) 9223372036854775812 2).2.sbrk_calls = [32] ∧
    8 < 9223372036854775812 * 2 := by
  decide

/-! ## Release twice, and handles in use -/

/-- Claim C18: for every state and every pointer, `myfree` twice leaves the
same state as `myfree` once. -/
theorem myfree_idempotent (st : State) (p : Option Nat) :
    myfree (myfree st p) p = myfree st p := by
  cases p with
  | none => rfl
  | some q => simp only [myfree, set_free_set_free]

/-- Claim C20, evaluated where it fails: on the empty chain with the break at
4096, `mymalloc(2 ^ 64 - 24)` returns the handle 4672 for a header at 4096,
marked used; a second `mymalloc(2 ^ 64 - 24)`, with no release in between,
calls `sbrk(0)` again, gets the same break and returns the handle 4672 again. -/
theorem handle_returned_twice :
    (mymalloc (initial_state 4096 1099511627776) 18446744073709551592).1 = some 4672 ∧
    (mymalloc (initial_state 4096 1099511627776) 18446744073709551592).2.head
      = [⟨4096, 18446744073709551592, 0⟩] ∧
    (mymalloc (mymalloc (initial_state 4096 1099511627776) 18446744073709551592).2
      18446744073709551592).1 = some 4672 ∧
    (mymalloc (mymalloc (initial_state 4096 1099511627776) 18446744073709551592).2
      18446744073709551592).2.sbrk_calls = [0, 0] := by
  decide

/-- When the headers are pairwise disjoint and the break lies apart from them,
the handle `mymalloc` returns is the handle of no header that was marked used
before the call. -/
theorem mymalloc_handle_not_in_use (st : State) (n h : Nat)
    (hwf : headers_disjoint st.head)
    (hfresh : ∀ q ∈ st.head, q.addr + BLOCK_SIZE ≤ st.brk ∨ st.brk + BLOCK_SIZE ≤ q.addr)
    (hr : (mymalloc st n).1 = some h) :
    ∀ q ∈ st.head, q.free = 0 → handle_of q.addr ≠ h := by
  intro q hq hqf hqh
  by_cases hn0 : n = 0
  · subst hn0
    simp [mymalloc] at hr
  · have hn : 1 ≤ n := by omega
    cases hfind : find_best_block st.head (int_of_size_t n) with
    | some b =>
      rw [mymalloc_reuse_eq st n b hn hfind] at hr
      simp only [Option.some.injEq] at hr
      obtain ⟨pre, post, hl⟩ := find_best_block_mem _ _ _ hfind
      have hbm : b ∈ st.head := by rw [hl]; simp
      have hbf : b.free ≠ 0 := by
        unfold find_best_block at hfind
        rcases find_best_block_loop_spec (int_of_size_t n) st.head none UINT_MAX with
          ⟨hr2, _⟩ | ⟨_, c, _, _, hr2, hf, _⟩
        · rw [hr2] at hfind; cases hfind
        · rw [hr2] at hfind; cases hfind; exact hf
      have hqa : q.addr = b.addr := by
        unfold handle_of at hqh hr; omega
      have := headers_disjoint_addr_inj st.head hwf q b hq hbm hqa
      subst this
      exact hbf hqf
    | none =>
      cases hg : sbrk st (intptr_of_size_t (n + BLOCK_SIZE)) with
      | mk r st1 =>
        have hframe := sbrk_frame st (intptr_of_size_t (n + BLOCK_SIZE))
        rw [hg] at hframe
        cases r with
        | none =>
          rw [mymalloc_fail_eq st n st1 hn hfind hg] at hr
          simp at hr
        | some a =>
          have ha : a = st.brk := hframe.2.2.2 a rfl
          rw [mymalloc_grow_eq st n a st1 hn hfind hg] at hr
          simp only [Option.some.injEq] at hr
          have := hfresh q hq
          unfold handle_of at hqh hr
          unfold BLOCK_SIZE at this
          omega

end Allocator
